import Mathlib

/-!
Verification development for the zix store/build engine and its companion
sources.  Part I embeds the two C++ translation units present in the
repository (`src/libcmd/repl-interacter.cc` and
`src/libutil/compute-levels.cc`) as pure Lean functions over explicit
state.  Part II models, from the specification's words, the components of
the store/build engine whose code the repository does not carry (content
store, sandboxed executor, scheduler, garbage collector).  Part III
states and proves the properties.
-/

/- ===================================================================
   Part I.A: embedding of `ReadlineLikeInteracter::getLine`
   (src/libcmd/repl-interacter.cc, POSIX branch).

   The relevant process state is the SIGINT disposition, the signal
   mask, and the `g_signal_received` flag (`volatile sig_atomic_t`,
   written by `sigintHandler`).  Each system call (`sigaction`,
   `sigprocmask`) may fail; a `SysBehavior` record fixes, for one call
   to `getLine`, which system calls fail, what `readline` returns, and
   whether a SIGINT is delivered while `readline` is blocked.
   =================================================================== -/

namespace ZixRepl

/-- A SIGINT disposition: either the repl's own `sigintHandler` or any
other handler value the process had installed before the call. -/
inductive Disposition where
  | sigintHandler : Disposition
  | other (id : Nat) : Disposition
deriving DecidableEq, Repr

/-- The process signal mask, split into the SIGINT bit (the only one the
code manipulates: `sigaddset(&set, SIGINT)` under `SIG_UNBLOCK`) and an
opaque code for the rest of the mask, which `SIG_SETMASK` restores
wholesale. -/
structure SigMask where
  sigintBlocked : Bool
  rest : Nat
deriving DecidableEq, Repr

/-- Process-level state read and written by `getLine`. -/
structure ReplState where
  disposition : Disposition
  mask : SigMask
  gSignalReceived : Nat
deriving DecidableEq, Repr

/-- The behaviour of the outside world during one `getLine` call: which
of the four signal system calls fail (returning nonzero), what
`readline` returns (`none` models a null pointer), and whether a SIGINT
is delivered while `readline` is blocked. -/
structure SysBehavior where
  sigactionInstallFails : Bool
  sigprocmaskUnblockFails : Bool
  sigprocmaskRestoreFails : Bool
  sigactionRestoreFails : Bool
  readlineResult : Option String
  sigintDuringReadline : Bool
deriving DecidableEq, Repr

/-- Result of a `getLine` call that did not throw: the `bool` return
value and the final contents of the caller's `input` buffer. -/
structure GetLineOk where
  ret : Bool
  input : String
deriving DecidableEq, Repr

/-- The exceptions `getLine` can throw (`SysError` sites, in source
order). -/
inductive SysErr where
  | installingHandler
  | unblockingSigint
  | restoringSignals
  | restoringHandler
deriving DecidableEq, Repr

/-- The numeric value `SIGINT`, stored into `g_signal_received` by
`sigintHandler` (`g_signal_received = signo`). -/
def SIGINT : Nat := 2

/-- Embedding of `ReadlineLikeInteracter::getLine` (POSIX branch).
Follows the source line by line: `setupSignals` installs
`sigintHandler` for SIGINT saving the old disposition in `old`, then
unblocks SIGINT saving the old mask in `savedSignalMask`; `readline`
runs (a delivered SIGINT sets `g_signal_received` through the installed
handler); `restoreSignals` restores the mask and then the disposition;
then the signal flag is tested before the null test on the line.  Every
`throw` site returns the state as it stands at that point. -/
def getLine (b : SysBehavior) (st : ReplState) (input : String) :
    Except SysErr GetLineOk × ReplState :=
  -- setupSignals: sigaction(SIGINT, &act, &old)
  if b.sigactionInstallFails then
    (Except.error SysErr.installingHandler, st)
  else
    let old := st.disposition
    let st₁ : ReplState := { st with disposition := Disposition.sigintHandler }
    -- setupSignals: sigprocmask(SIG_UNBLOCK, {SIGINT}, &savedSignalMask)
    if b.sigprocmaskUnblockFails then
      (Except.error SysErr.unblockingSigint, st₁)
    else
      let savedSignalMask := st₁.mask
      let st₂ : ReplState := { st₁ with mask := { st₁.mask with sigintBlocked := false } }
      -- readline(promptForType(promptType)); a delivered SIGINT runs
      -- sigintHandler, which stores the signal number into the flag
      let s := b.readlineResult
      let st₃ : ReplState :=
        if b.sigintDuringReadline then { st₂ with gSignalReceived := SIGINT } else st₂
      -- restoreSignals: sigprocmask(SIG_SETMASK, &savedSignalMask, nullptr)
      if b.sigprocmaskRestoreFails then
        (Except.error SysErr.restoringSignals, st₃)
      else
        let st₄ : ReplState := { st₃ with mask := savedSignalMask }
        -- restoreSignals: sigaction(SIGINT, &old, 0)
        if b.sigactionRestoreFails then
          (Except.error SysErr.restoringHandler, st₄)
        else
          let st₅ : ReplState := { st₄ with disposition := old }
          -- if (g_signal_received) { g_signal_received = 0; input.clear(); return true; }
          if st₅.gSignalReceived ≠ 0 then
            (Except.ok ⟨true, ""⟩, { st₅ with gSignalReceived := 0 })
          else
            -- if (!s) return false;  input += s; input += '\n'; return true;
            match s with
            | none => (Except.ok ⟨false, input⟩, st₅)
            | some line => (Except.ok ⟨true, input ++ line ++ "\n"⟩, st₅)

end ZixRepl

/- ===================================================================
   Part I.B: embedding of `computeLevels`
   (src/libutil/compute-levels.cc).
   =================================================================== -/

namespace ZixCPU

/-- Embedding of `computeLevels`.  `haveLibcpuid` is the compile-time
`HAVE_LIBCPUID` flag; `cpuidResult` models the return of
`nix_libutil_cpuid` (`none` for a null pointer, otherwise the strings
of the null-terminated array in order).  `StringSet` (`std::set`) is
modelled as `Finset String`; the insertion loop inserts each entry. -/
def computeLevels (haveLibcpuid : Bool) (cpuidResult : Option (List String)) :
    Finset String :=
  if haveLibcpuid then
    match cpuidResult with
    | none => ∅
    | some value => value.foldl (fun levels s => insert s levels) ∅
  else
    ∅

end ZixCPU

/- ===================================================================
   Part II.A: the Content Store, modelled from the spec (the engine's
   code is not part of this repository; only the spec describes it).
   =================================================================== -/

namespace ZixStore

mutual
/-- Modelled from the spec: an artifact's content is "bytes or directory
tree" (spec section 3, Artifact; section 4.1).  Directory entries are kept
in the canonical (stable) order the spec's canonical serialization
prescribes. -/
inductive Content where
  | file (bytes : List Nat) : Content
  | dir (entries : Entries) : Content

/-- Modelled from the spec: the entry list of a directory tree, each
entry a name and a content. -/
inductive Entries where
  | nil : Entries
  | cons (name : String) (c : Content) (rest : Entries) : Entries
end

mutual
/-- Modelled from the spec: the "canonical serialization of directory
trees (stable ordering of entries, explicit file mode bits)" that
fingerprints are computed over (spec section 4.1).  The digest itself is
modelled as this serialization: the spec treats collisions as negligible,
so the digest is an injective function of the serialized bytes. -/
def ser : Content → List Nat
  | Content.file bytes => 0 :: bytes.length :: bytes
  | Content.dir entries => 1 :: serEntries entries

/-- Serialization of a directory entry list: a tag per constructor, a
length-prefixed name, then the entry's content. -/
def serEntries : Entries → List Nat
  | Entries.nil => [0]
  | Entries.cons name c rest =>
      1 :: name.length :: ((name.data.map Char.toNat) ++ (ser c ++ serEntries rest))
end

/-- Modelled from the spec: a ContentFingerprint, "a fixed-size
cryptographic digest over an artifact's bytes plus a type tag" (spec
section 3); here the digest of the canonical serialization. -/
def fingerprint (c : Content) : List Nat := ser c

/-- Modelled from the spec: a StorePath is "derived deterministically
from a ContentFingerprint and a human-readable name" (spec section 3). -/
structure StorePath where
  fp : List Nat
  name : String
deriving DecidableEq, Repr

/-- Modelled from the spec: the deterministic StorePath of a content
under a fixed naming convention. -/
def storePathOf (c : Content) (name : String) : StorePath :=
  ⟨fingerprint c, name⟩

/-- Modelled from the spec: the on-disk object database "mapping a
content fingerprint to an immutable artifact", an association list from
StorePath to Content. -/
abbrev Store := List (StorePath × Content)

/-- Modelled from the spec: `exists(StorePath) -> bool` (spec 4.1). -/
def existsPath (s : Store) (p : StorePath) : Bool :=
  s.any (fun pc => pc.1 = p)

/-- Modelled from the spec: `get(StorePath) -> Artifact` fails with
NotFound if absent (spec 4.1); `none` models NotFound. -/
def get (s : Store) (p : StorePath) : Option Content :=
  (s.find? (fun pc => pc.1 = p)).map Prod.snd

/-- Modelled from the spec: `put(bytes-or-tree) -> StorePath`,
"idempotent: identical content returns the same path without rewriting"
(spec 4.1): the path is computed from the content's fingerprint, and the
artifact is installed only when the path is not already present. -/
def put (s : Store) (c : Content) (name : String) : StorePath × Store :=
  let p := storePathOf c name
  if existsPath s p then (p, s) else (p, (p, c) :: s)

/-- A store is well formed when every recorded artifact lies under the
path its own content addresses to: the invariant "StorePath uniquely
determines its ContentFingerprint" (spec section 3). -/
def WF (s : Store) : Prop :=
  ∀ pc ∈ s, pc.1 = storePathOf pc.2 pc.1.name

end ZixStore

/- ===================================================================
   Part II.B: the Sandboxed Executor, modelled from the spec.
   =================================================================== -/

namespace ZixExec

/-- Modelled from the spec: a build recipe, "inputs: set of StorePath,
command: executable spec, outputs: set of named output slots" (spec
section 3). -/
structure Recipe where
  inputs : List ZixStore.StorePath
  command : String
  outputs : List String
deriving DecidableEq, Repr

/-- Modelled from the spec: the reasons `run` can fail, "nonzero exit,
timeout, or an output failing to materialize" (spec 4.4). -/
inductive FailReason where
  | nonzeroExit (code : Nat)
  | timeout
  | missingOutput (slot : String)
deriving DecidableEq, Repr

/-- Modelled from the spec: the status field of a BuildResult coming out
of the Sandboxed Executor, Success carrying the mapping from output slot
to StorePath, or Failure with a reason (spec section 3). -/
inductive RunStatus where
  | success (outs : List (String × ZixStore.StorePath))
  | failure (reason : FailReason)
deriving DecidableEq, Repr

/-- Modelled from the spec: the observable outcome of executing the
recipe's command inside the sandbox: exit code, whether the wall-clock
timeout fired, and which output slots the command materialized in the
temporary staging area, with their contents. -/
structure RunOutcome where
  exitCode : Nat
  timedOut : Bool
  produced : List (String × ZixStore.Content)

/-- Content a declared output slot was staged with, if any. -/
def stagedContent (out : RunOutcome) (slot : String) : Option ZixStore.Content :=
  (out.produced.find? (fun nc => nc.1 = slot)).map Prod.snd

/-- Modelled from the spec: `run(Recipe) -> BuildResult` (spec 4.4).  On
timeout, nonzero exit, or a declared output failing to materialize it
returns Failure and leaves the Content Store untouched; only when the
full output set is present does it commit every declared output through
the Content Store's `put`. -/
def run (R : Recipe) (out : RunOutcome) (store : ZixStore.Store) :
    RunStatus × ZixStore.Store :=
  if out.timedOut then
    (RunStatus.failure FailReason.timeout, store)
  else if out.exitCode ≠ 0 then
    (RunStatus.failure (FailReason.nonzeroExit out.exitCode), store)
  else
    match R.outputs.find? (fun slot => (stagedContent out slot).isNone) with
    | some slot => (RunStatus.failure (FailReason.missingOutput slot), store)
    | none =>
        let committed := R.outputs.foldl
          (fun (acc : List (String × ZixStore.StorePath) × ZixStore.Store) slot =>
            match stagedContent out slot with
            | none => acc
            | some c =>
                let ps := ZixStore.put acc.2 c slot
                ((slot, ps.1) :: acc.1, ps.2))
          ([], store)
        (RunStatus.success committed.1.reverse, committed.2)

end ZixExec

/- ===================================================================
   Part II.C: the Scheduler, modelled from the spec.  Recipes are
   indexed 0, 1, ..., n-1 in the order a topological sort (declaration
   order among ties) assigns, so a recipe's inputs carry smaller
   indices; `cmdOk r` tells whether recipe r's build command succeeds
   when executed.
   =================================================================== -/

namespace ZixSched

/-- Modelled from the spec: the terminal recipe states of the scheduler
state machine (spec 4.3). -/
inductive BStatus where
  | Succeeded
  | Failed
deriving DecidableEq, Repr

/-- Whether a recorded scheduler entry is a success. -/
def isSucc : Option (BStatus × Bool) → Bool
  | some (BStatus.Succeeded, _) => true
  | _ => false

/-- Modelled from the spec: the scheduler's realization pass (spec 4.3).
`schedule cmdOk deps n` processes recipes `0, ..., n-1` in topological
order and returns, for each processed recipe, its terminal status and
whether its build command was executed: a recipe whose inputs all
Succeeded is dispatched and ends Succeeded or Failed according to its
command; a recipe with a Failed input is marked Failed without being
executed (no partial credit), while recipes on other branches are still
processed. -/
def schedule (cmdOk : Nat → Bool) (deps : Nat → List Nat) :
    Nat → Nat → Option (BStatus × Bool)
  | 0, _ => none
  | n + 1, r =>
      let st := schedule cmdOk deps n
      if r = n then
        if (deps n).all (fun d => isSucc (st d)) then
          some (if cmdOk n then BStatus.Succeeded else BStatus.Failed, true)
        else
          some (BStatus.Failed, false)
      else st r

/-- Recipe `r` transitively depends on recipe `d` through the input
relation. -/
inductive DependsOn (deps : Nat → List Nat) : Nat → Nat → Prop where
  | direct {r d : Nat} : d ∈ deps r → DependsOn deps r d
  | trans {r m d : Nat} : m ∈ deps r → DependsOn deps m d → DependsOn deps r d

/-- Modelled from the spec: graph-level validation errors, "fatal to the
whole realize call" (spec section 7); CycleDetected carries the set of
recipes stuck on a cycle, identifying a path forming it. -/
inductive GraphError where
  | CycleDetected (remaining : List Nat)
deriving DecidableEq, Repr

/-- Recipes of `remaining` with no input left in `remaining`: the ready
set of the worklist. -/
def readyOf (deps : Nat → List Nat) (remaining : List Nat) : List Nat :=
  remaining.filter (fun r => (deps r).all (fun d => !(remaining.contains d)))

/-- Modelled from the spec: cycle detection by repeatedly peeling the
ready set off the remaining recipes (an explicit worklist, spec section
9); when no recipe is ready yet some remain, the input relation is not a
DAG and validation fails with CycleDetected. -/
def kahn (deps : Nat → List Nat) : Nat → List Nat → Except GraphError Unit
  | 0, remaining =>
      if remaining.isEmpty then Except.ok ()
      else Except.error (GraphError.CycleDetected remaining)
  | fuel + 1, remaining =>
      if remaining.isEmpty then Except.ok ()
      else
        let ready := readyOf deps remaining
        if ready.isEmpty then Except.error (GraphError.CycleDetected remaining)
        else kahn deps fuel (remaining.filter (fun r => !(ready.contains r)))

/-- Modelled from the spec: `validate()` on a graph of recipes
`0, ..., n-1`, failing with CycleDetected when the input relation has a
cycle (spec 4.2). -/
def validate (deps : Nat → List Nat) (n : Nat) : Except GraphError Unit :=
  kahn deps n (List.range n)

/-- Modelled from the spec: the library entry point
`realize(recipeGraph, targets)` (spec section 6): validation runs first
and a graph-level error aborts the whole call before any scheduling; on
a valid graph the scheduler's pass produces the terminal state map. -/
def realize (cmdOk : Nat → Bool) (deps : Nat → List Nat) (n : Nat) :
    Except GraphError (Nat → Option (BStatus × Bool)) :=
  match validate deps n with
  | Except.error e => Except.error e
  | Except.ok _ => Except.ok (schedule cmdOk deps n)

end ZixSched

/- ===================================================================
   Part II.D: the Garbage Collector, modelled from the spec.
   =================================================================== -/

namespace ZixGC

open ZixStore (StorePath)

/-- Modelled from the spec: the store state the collector sees: the set
of store objects present, each stored artifact's recorded
input-reference set, and the set of paths whose lock an active build
currently holds. -/
structure GCStore where
  paths : Finset StorePath
  refs : StorePath → Finset StorePath
  locked : Finset StorePath

/-- A path is reachable from the root set by transitively following
recorded input references: a root is reachable, and so is any reference
recorded on a reachable stored artifact (spec 4.7). -/
inductive Reaches (g : GCStore) (roots : Finset StorePath) : StorePath → Prop where
  | root {p : StorePath} : p ∈ roots → Reaches g roots p
  | step {q p : StorePath} : Reaches g roots q → q ∈ g.paths → p ∈ g.refs q →
      Reaches g roots p

/-- One round of the mark phase: add every store object referenced by an
already-marked object. -/
def markStep (g : GCStore) (S : Finset StorePath) : Finset StorePath :=
  S ∪ g.paths.filter (fun p => ∃ q ∈ S, p ∈ g.refs q)

/-- Modelled from the spec: the closure computation "by following each
artifact's recorded input-reference set transitively from roots" (spec
4.7), as an explicit bounded iteration (worklist over an index, spec
section 9) starting from the roots present in the store. -/
def markIter (g : GCStore) (roots : Finset StorePath) : Nat → Finset StorePath
  | 0 => g.paths.filter (fun p => p ∈ roots)
  | k + 1 => markStep g (markIter g roots k)

/-- The fixed point of the mark phase: the store objects reachable from
the roots. -/
def reachableSet (g : GCStore) (roots : Finset StorePath) : Finset StorePath :=
  markIter g roots g.paths.card

/-- Modelled from the spec: `collect(roots) -> freed` (spec 4.7):
removes every store object outside the reachable closure whose lock can
be acquired; a candidate whose lock an active build holds is skipped,
never an error.  Returns the freed set and the store after removal. -/
def collect (g : GCStore) (roots : Finset StorePath) : Finset StorePath × GCStore :=
  let live := reachableSet g roots
  let freed := g.paths.filter (fun p => p ∉ live ∧ p ∉ g.locked)
  (freed, { g with paths := g.paths \ freed })

end ZixGC

/- ===================================================================
   Part III: properties.
   =================================================================== -/

/- Part III.A: `computeLevels`. -/

namespace ZixCPU

theorem mem_foldl_insert (s : String) :
    ∀ (l : List String) (acc : Finset String),
      s ∈ l.foldl (fun levels x => insert x levels) acc ↔ s ∈ l ∨ s ∈ acc := by
  intro l
  induction l with
  | nil => intro acc; simp
  | cons x xs ih =>
      intro acc
      simp only [List.foldl_cons, ih, Finset.mem_insert, List.mem_cons]
      tauto

end ZixCPU

/-- C10: `computeLevels` is total; without libcpuid, or when
`nix_libutil_cpuid` returns a null pointer, it returns the empty
StringSet, and otherwise it returns exactly the set of strings of the
null-terminated array, duplicates collapsed (membership in the result is
membership in the array). -/
theorem C10_computeLevels_total :
    (∀ v, ZixCPU.computeLevels false v = ∅) ∧
    ZixCPU.computeLevels true none = ∅ ∧
    ∀ l s, s ∈ ZixCPU.computeLevels true (some l) ↔ s ∈ l := by
  refine ⟨fun v => rfl, rfl, fun l s => ?_⟩
  simp [ZixCPU.computeLevels, ZixCPU.mem_foldl_insert]

/-- C10 witness: concrete evaluations, with a duplicated entry collapsing. -/
theorem C10_computeLevels_total_witness :
    ZixCPU.computeLevels false (some ["x86-64-v2"]) = ∅ ∧
    ZixCPU.computeLevels true none = ∅ ∧
    ("x86-64-v2" ∈ ZixCPU.computeLevels true (some ["x86-64-v2", "x86-64-v2"]) ↔
      "x86-64-v2" ∈ (["x86-64-v2", "x86-64-v2"] : List String)) :=
  ⟨C10_computeLevels_total.1 (some ["x86-64-v2"]), C10_computeLevels_total.2.1,
    C10_computeLevels_total.2.2 ["x86-64-v2", "x86-64-v2"] "x86-64-v2"⟩

/- Part III.B: `ReadlineLikeInteracter::getLine`. -/

/-- C1 fails on the code: when `sigaction` succeeds installing
`sigintHandler` and the subsequent `sigprocmask(SIG_UNBLOCK, ...)`
fails, `setupSignals` throws and the call exits with the handler still
installed, so the SIGINT disposition in effect on entry is not restored
on that error path. -/
theorem C1_counterexample :
    ¬ ∀ (b : ZixRepl.SysBehavior) (st : ZixRepl.ReplState) (input : String),
        (ZixRepl.getLine b st input).2.disposition = st.disposition ∧
        (ZixRepl.getLine b st input).2.mask = st.mask := by
  intro h
  have := (h ⟨false, true, false, false, none, false⟩
      ⟨ZixRepl.Disposition.other 0, ⟨true, 0⟩, 0⟩ "").1
  simp [ZixRepl.getLine] at this

/-- C1 amended: on every exit path on which `getLine` returns normally
(every signal system call succeeded), the SIGINT disposition and the
signal mask in effect on entry are restored; on the error path where
installation partially succeeds and a later call throws, they are not. -/
theorem C1_getLine_restores_on_ok (b : ZixRepl.SysBehavior) (st : ZixRepl.ReplState)
    (input : String) (r : ZixRepl.GetLineOk) (s' : ZixRepl.ReplState)
    (h : ZixRepl.getLine b st input = (Except.ok r, s')) :
    s'.disposition = st.disposition ∧ s'.mask = st.mask := by
  by_cases h1 : b.sigactionInstallFails <;>
    by_cases h2 : b.sigprocmaskUnblockFails <;>
      by_cases h3 : b.sigprocmaskRestoreFails <;>
        by_cases h4 : b.sigactionRestoreFails <;>
          simp [ZixRepl.getLine, h1, h2, h3, h4] at h
  repeat' split at h
  all_goals (injection h with ha hb2; subst hb2; exact ⟨rfl, rfl⟩)

/-- C1 witness: a concrete successful call restores the entry
disposition and mask. -/
theorem C1_getLine_restores_on_ok_witness :
    (ZixRepl.getLine ⟨false, false, false, false, some "y", false⟩
        ⟨ZixRepl.Disposition.other 5, ⟨true, 3⟩, 0⟩ "x").2.disposition =
      ZixRepl.Disposition.other 5 ∧
    (ZixRepl.getLine ⟨false, false, false, false, some "y", false⟩
        ⟨ZixRepl.Disposition.other 5, ⟨true, 3⟩, 0⟩ "x").2.mask = ⟨true, 3⟩ :=
  C1_getLine_restores_on_ok ⟨false, false, false, false, some "y", false⟩
    ⟨ZixRepl.Disposition.other 5, ⟨true, 3⟩, 0⟩ "x" ⟨true, "xy\n"⟩ _ rfl

/-- C8: when a SIGINT is delivered while `readline` is blocked (so
`sigintHandler` recorded the signal number), a normally returning
`getLine` returns true with the caller's input buffer cleared, and the
`g_signal_received` flag is reset to zero so a later call does not see
the stale signal. -/
theorem C8_getLine_sigint (b : ZixRepl.SysBehavior) (st : ZixRepl.ReplState)
    (input : String) (r : ZixRepl.GetLineOk) (s' : ZixRepl.ReplState)
    (h : ZixRepl.getLine b st input = (Except.ok r, s'))
    (hsig : b.sigintDuringReadline = true) :
    r.ret = true ∧ r.input = "" ∧ s'.gSignalReceived = 0 := by
  by_cases h1 : b.sigactionInstallFails <;>
    by_cases h2 : b.sigprocmaskUnblockFails <;>
      by_cases h3 : b.sigprocmaskRestoreFails <;>
        by_cases h4 : b.sigactionRestoreFails <;>
          simp [ZixRepl.getLine, ZixRepl.SIGINT, h1, h2, h3, h4, hsig] at h
  obtain ⟨hr, hs⟩ := h
  subst hs
  exact ⟨by rw [← hr], by rw [← hr], rfl⟩

/-- C8 witness: a concrete call interrupted by SIGINT returns true,
clears the buffer, and resets the flag. -/
theorem C8_getLine_sigint_witness :
    (⟨true, ""⟩ : ZixRepl.GetLineOk).ret = true ∧
    (⟨true, ""⟩ : ZixRepl.GetLineOk).input = "" ∧
    (⟨ZixRepl.Disposition.other 1, ⟨false, 0⟩, 0⟩ : ZixRepl.ReplState).gSignalReceived = 0 :=
  C8_getLine_sigint ⟨false, false, false, false, some "y", true⟩
    ⟨ZixRepl.Disposition.other 1, ⟨false, 0⟩, 0⟩ "abc" ⟨true, ""⟩
    ⟨ZixRepl.Disposition.other 1, ⟨false, 0⟩, 0⟩ rfl rfl

/-- C9: with no signal received (flag clear on entry, no SIGINT during
`readline`), a normally returning `getLine` returns false leaving the
caller's input buffer unchanged when `readline` returned a null
pointer, and otherwise appends the returned line plus exactly one
newline to the buffer and returns true. -/
theorem C9_getLine_no_signal (b : ZixRepl.SysBehavior) (st : ZixRepl.ReplState)
    (input : String) (r : ZixRepl.GetLineOk) (s' : ZixRepl.ReplState)
    (h : ZixRepl.getLine b st input = (Except.ok r, s'))
    (hns : b.sigintDuringReadline = false) (hflag : st.gSignalReceived = 0) :
    (b.readlineResult = none → r.ret = false ∧ r.input = input) ∧
    ∀ line, b.readlineResult = some line →
      r.ret = true ∧ r.input = input ++ line ++ "\n" := by
  by_cases h1 : b.sigactionInstallFails <;>
    by_cases h2 : b.sigprocmaskUnblockFails <;>
      by_cases h3 : b.sigprocmaskRestoreFails <;>
        by_cases h4 : b.sigactionRestoreFails <;>
          simp [ZixRepl.getLine, h1, h2, h3, h4, hns, hflag] at h
  cases hb : b.readlineResult with
  | none =>
      rw [hb] at h
      injection h with ha hb2
      injection ha with ha
      subst ha
      simp [hb]
  | some line =>
      rw [hb] at h
      injection h with ha hb2
      injection ha with ha
      subst ha
      simp [hb]

/-- C9 witness: a concrete undisturbed call appends the read line and a
newline to the buffer and returns true. -/
theorem C9_getLine_no_signal_witness :
    (⟨true, "xy\n"⟩ : ZixRepl.GetLineOk).ret = true ∧
    (⟨true, "xy\n"⟩ : ZixRepl.GetLineOk).input = "x" ++ "y" ++ "\n" :=
  (C9_getLine_no_signal ⟨false, false, false, false, some "y", false⟩
    ⟨ZixRepl.Disposition.other 1, ⟨false, 0⟩, 0⟩ "x" ⟨true, "xy\n"⟩
    ⟨ZixRepl.Disposition.other 1, ⟨false, 0⟩, 0⟩ rfl rfl rfl).2 "y" rfl

/- Part III.C: the Content Store. -/

namespace ZixStore

theorem char_toNat_injective : Function.Injective Char.toNat := by
  intro a b h
  rw [← Char.ofNat_toNat a, ← Char.ofNat_toNat b, h]

mutual

theorem ser_append_inj :
    ∀ (c1 c2 : Content) (t1 t2 : List Nat),
      ser c1 ++ t1 = ser c2 ++ t2 → c1 = c2 ∧ t1 = t2
  | Content.file b1, Content.file b2, t1, t2 => fun h => by
      simp only [ser, List.cons_append] at h
      injection h with h0 h
      injection h with hlen h
      obtain ⟨hb, ht⟩ := List.append_inj h hlen
      exact ⟨by rw [hb], ht⟩
  | Content.file b1, Content.dir e2, t1, t2 => fun h => by
      simp only [ser, List.cons_append] at h
      injection h with h0 h
      exact absurd h0 (by decide)
  | Content.dir e1, Content.file b2, t1, t2 => fun h => by
      simp only [ser, List.cons_append] at h
      injection h with h0 h
      exact absurd h0 (by decide)
  | Content.dir e1, Content.dir e2, t1, t2 => fun h => by
      simp only [ser, List.cons_append] at h
      injection h with h0 h
      obtain ⟨he, ht⟩ := serEntries_append_inj e1 e2 t1 t2 h
      exact ⟨by rw [he], ht⟩

theorem serEntries_append_inj :
    ∀ (e1 e2 : Entries) (t1 t2 : List Nat),
      serEntries e1 ++ t1 = serEntries e2 ++ t2 → e1 = e2 ∧ t1 = t2
  | Entries.nil, Entries.nil, t1, t2 => fun h => by
      simp only [serEntries, List.cons_append, List.nil_append] at h
      injection h with h0 h
      exact ⟨rfl, h⟩
  | Entries.nil, Entries.cons n2 c2 r2, t1, t2 => fun h => by
      simp only [serEntries, List.cons_append] at h
      injection h with h0 h
      exact absurd h0 (by decide)
  | Entries.cons n1 c1 r1, Entries.nil, t1, t2 => fun h => by
      simp only [serEntries, List.cons_append] at h
      injection h with h0 h
      exact absurd h0 (by decide)
  | Entries.cons n1 c1 r1, Entries.cons n2 c2 r2, t1, t2 => fun h => by
      simp only [serEntries, List.cons_append, List.append_assoc] at h
      injection h with h0 h
      injection h with hlen h
      have hmaplen : (n1.data.map Char.toNat).length = (n2.data.map Char.toNat).length := by
        simp only [List.length_map]
        exact hlen
      obtain ⟨hmap, h⟩ := List.append_inj h hmaplen
      have hn : n1 = n2 :=
        congrArg String.mk (List.map_injective_iff.mpr char_toNat_injective hmap)
      obtain ⟨hc, h⟩ := ser_append_inj c1 c2 (serEntries r1 ++ t1) (serEntries r2 ++ t2) h
      obtain ⟨hr, ht⟩ := serEntries_append_inj r1 r2 t1 t2 h
      exact ⟨by rw [hn, hc, hr], ht⟩

end

/-- The modelled digest is collision-free: equal canonical serializations
come from equal contents. -/
theorem ser_inj {c1 c2 : Content} (h : ser c1 = ser c2) : c1 = c2 :=
  (ser_append_inj c1 c2 [] [] (by simpa using h)).1

/-- In a well-formed store, looking up the path a content addresses to
returns exactly that content, provided the path is present. -/
theorem get_eq_some_of_wf (s : Store) (hwf : WF s) (c : Content) (name : String)
    (hex : existsPath s (storePathOf c name) = true) :
    get s (storePathOf c name) = some c := by
  revert hwf hex
  induction s with
  | nil =>
      intro hwf hex
      simp [existsPath] at hex
  | cons pc rest ih =>
      intro hwf hex
      by_cases hp : pc.1 = storePathOf c name
      · have hwfpc := hwf pc (by simp)
        have h2 : pc.1.name = name := by rw [hp]; rfl
        have h1 : storePathOf pc.2 name = storePathOf c name := by
          rw [← h2, ← hwfpc, hp]
          rfl
        have hser : ser pc.2 = ser c := congrArg StorePath.fp h1
        have hc : pc.2 = c := ser_inj hser
        simp [get, List.find?_cons_of_pos, hp, hc]
      · have hex' : existsPath rest (storePathOf c name) = true := by
          simpa [existsPath, hp] using hex
        have hwf' : WF rest := fun q hq => hwf q (List.mem_cons_of_mem pc hq)
        have := ih hwf' hex'
        simpa [get, List.find?_cons_of_neg, hp] using this

end ZixStore

/-- C6: for every content C (bytes or directory tree) and every
well-formed store, `put(C)` succeeds with a StorePath p such that
`get(p)` returns an artifact whose content equals C exactly. -/
theorem C6_put_get_roundtrip (s : ZixStore.Store) (c : ZixStore.Content) (name : String)
    (hwf : ZixStore.WF s) :
    ZixStore.get (ZixStore.put s c name).2 (ZixStore.put s c name).1 = some c := by
  by_cases hex : ZixStore.existsPath s (ZixStore.storePathOf c name) = true
  · have hput : ZixStore.put s c name = (ZixStore.storePathOf c name, s) := by
      simp [ZixStore.put, hex]
    rw [hput]
    exact ZixStore.get_eq_some_of_wf s hwf c name hex
  · have hput : ZixStore.put s c name =
        (ZixStore.storePathOf c name, (ZixStore.storePathOf c name, c) :: s) := by
      simp [ZixStore.put, hex]
    rw [hput]
    simp [ZixStore.get, List.find?_cons_of_pos]

/-- C6 witness: a concrete directory tree round-trips through an empty
(well-formed) store. -/
theorem C6_put_get_roundtrip_witness :
    ZixStore.get
        (ZixStore.put []
          (ZixStore.Content.dir
            (ZixStore.Entries.cons "f" (ZixStore.Content.file [1, 2]) ZixStore.Entries.nil))
          "n").2
        (ZixStore.put []
          (ZixStore.Content.dir
            (ZixStore.Entries.cons "f" (ZixStore.Content.file [1, 2]) ZixStore.Entries.nil))
          "n").1 =
      some (ZixStore.Content.dir
        (ZixStore.Entries.cons "f" (ZixStore.Content.file [1, 2]) ZixStore.Entries.nil)) :=
  C6_put_get_roundtrip []
    (ZixStore.Content.dir
      (ZixStore.Entries.cons "f" (ZixStore.Content.file [1, 2]) ZixStore.Entries.nil))
    "n" (fun pc h => absurd h (List.not_mem_nil pc))

/-- C7: two contents with identical canonical bytes get the same
StorePath from `put`, and the second `put` does not rewrite the stored
artifact: the store after the second `put` equals the store after the
first. -/
theorem C7_put_idempotent (s : ZixStore.Store) (c1 c2 : ZixStore.Content) (name : String)
    (hbytes : ZixStore.ser c1 = ZixStore.ser c2) :
    (ZixStore.put s c1 name).1 = (ZixStore.put s c2 name).1 ∧
    ZixStore.put (ZixStore.put s c1 name).2 c2 name = ZixStore.put s c1 name := by
  have hc : c1 = c2 := ZixStore.ser_inj hbytes
  subst hc
  refine ⟨rfl, ?_⟩
  by_cases hex : ZixStore.existsPath s (ZixStore.storePathOf c1 name) = true
  · have hput : ZixStore.put s c1 name = (ZixStore.storePathOf c1 name, s) := by
      simp [ZixStore.put, hex]
    rw [hput]
    simp [ZixStore.put, hex]
  · have hput : ZixStore.put s c1 name =
        (ZixStore.storePathOf c1 name, (ZixStore.storePathOf c1 name, c1) :: s) := by
      simp [ZixStore.put, hex]
    rw [hput]
    simp [ZixStore.put, ZixStore.existsPath]

/-- C7 witness: a concrete second `put` of the same bytes returns the
same path and leaves the store exactly as after the first. -/
theorem C7_put_idempotent_witness :
    (ZixStore.put [] (ZixStore.Content.file [7]) "a").1 =
      (ZixStore.put [] (ZixStore.Content.file [7]) "a").1 ∧
    ZixStore.put (ZixStore.put [] (ZixStore.Content.file [7]) "a").2
        (ZixStore.Content.file [7]) "a" =
      ZixStore.put [] (ZixStore.Content.file [7]) "a" :=
  C7_put_idempotent [] (ZixStore.Content.file [7]) (ZixStore.Content.file [7]) "a" rfl

/- Part III.D: the Sandboxed Executor. -/

/-- C4: whenever `run(R)` ends with nonzero exit status, a timeout, or a
declared output failing to materialize, it returns `Failure(reason)` and
the Content Store is unchanged: no declared output is committed, all
staging having remained in the temporary area. -/
theorem C4_run_failure_no_store_writes (R : ZixExec.Recipe) (out : ZixExec.RunOutcome)
    (store : ZixStore.Store)
    (hfail : out.timedOut = true ∨ out.exitCode ≠ 0 ∨
      ∃ slot ∈ R.outputs, ZixExec.stagedContent out slot = none) :
    (∃ reason, (ZixExec.run R out store).1 = ZixExec.RunStatus.failure reason) ∧
    (ZixExec.run R out store).2 = store := by
  by_cases ht : out.timedOut = true
  · refine ⟨⟨ZixExec.FailReason.timeout, ?_⟩, ?_⟩ <;> simp [ZixExec.run, ht]
  · by_cases hexit : out.exitCode = 0
    · have hmiss : ∃ slot ∈ R.outputs, ZixExec.stagedContent out slot = none := by
        rcases hfail with h | h | h
        · exact absurd h ht
        · exact absurd hexit h
        · exact h
      obtain ⟨slot, hmem, hnone⟩ := hmiss
      have hsome : (R.outputs.find? (fun slot => (ZixExec.stagedContent out slot).isNone)).isSome := by
        rw [List.find?_isSome]
        exact ⟨slot, hmem, by simp [hnone]⟩
      obtain ⟨slot', heq⟩ := Option.isSome_iff_exists.mp hsome
      refine ⟨⟨ZixExec.FailReason.missingOutput slot', ?_⟩, ?_⟩ <;>
        simp [ZixExec.run, ht, hexit, heq]
    · refine ⟨⟨ZixExec.FailReason.nonzeroExit out.exitCode, ?_⟩, ?_⟩ <;>
        simp [ZixExec.run, ht, hexit]

/-- C4 witness: a command exiting with status 1 yields a Failure and an
untouched store. -/
theorem C4_run_failure_no_store_writes_witness :
    (∃ reason,
      (ZixExec.run ⟨[], "cmd", ["out"]⟩ ⟨1, false, []⟩ []).1 =
        ZixExec.RunStatus.failure reason) ∧
    (ZixExec.run ⟨[], "cmd", ["out"]⟩ ⟨1, false, []⟩ []).2 = [] :=
  C4_run_failure_no_store_writes ⟨[], "cmd", ["out"]⟩ ⟨1, false, []⟩ []
    (Or.inr (Or.inl (by decide)))

/- Part III.E: the Scheduler. -/

namespace ZixSched

theorem schedule_none_of_ge (cmdOk : Nat → Bool) (deps : Nat → List Nat) :
    ∀ n r, n ≤ r → schedule cmdOk deps n r = none
  | 0, r, _ => rfl
  | n + 1, r, h => by
      have hne : r ≠ n := by omega
      simp only [schedule, hne, if_false]
      exact schedule_none_of_ge cmdOk deps n r (by omega)

theorem schedule_stable (cmdOk : Nat → Bool) (deps : Nat → List Nat) {m : Nat} (r : Nat)
    (hr : r < m) : ∀ {n}, m ≤ n → schedule cmdOk deps n r = schedule cmdOk deps m r := by
  intro n
  induction n with
  | zero => intro h; exact absurd hr (by omega)
  | succ n ih =>
      intro h
      rcases Nat.eq_or_lt_of_le h with he | hlt
      · rw [he]
      · have hmn : m ≤ n := by omega
        have hrn : r ≠ n := by omega
        simp only [schedule, hrn, if_false]
        exact ih hmn

theorem all_congr_aux {α : Type} (xs : List α) (f g : α → Bool)
    (hfg : ∀ x ∈ xs, f x = g x) : xs.all f = xs.all g := by
  cases hall : xs.all g
  · rw [List.all_eq_false] at hall ⊢
    obtain ⟨x, hx, hxf⟩ := hall
    refine ⟨x, hx, ?_⟩
    rw [hfg x hx]
    exact hxf
  · rw [List.all_eq_true] at hall ⊢
    intro x hx
    rw [hfg x hx]
    exact hall x hx

theorem schedule_eq (cmdOk : Nat → Bool) (deps : Nat → List Nat)
    (hb : ∀ a d, d ∈ deps a → d < a) {n r : Nat} (hr : r < n) :
    schedule cmdOk deps n r =
      if (deps r).all (fun d => isSucc (schedule cmdOk deps n d)) then
        some (if cmdOk r then BStatus.Succeeded else BStatus.Failed, true)
      else
        some (BStatus.Failed, false) := by
  have h1 : schedule cmdOk deps n r = schedule cmdOk deps (r + 1) r :=
    schedule_stable cmdOk deps r (Nat.lt_succ_self r) hr
  have h2 : schedule cmdOk deps (r + 1) r =
      if (deps r).all (fun d => isSucc (schedule cmdOk deps r d)) then
        some (if cmdOk r then BStatus.Succeeded else BStatus.Failed, true)
      else
        some (BStatus.Failed, false) := by
    simp [schedule]
  have h3 : ((deps r).all fun d => isSucc (schedule cmdOk deps r d)) =
      ((deps r).all fun d => isSucc (schedule cmdOk deps n d)) := by
    apply all_congr_aux
    intro d hd
    have hdr : d < r := hb r d hd
    rw [schedule_stable cmdOk deps d hdr (by omega : r ≤ n),
      schedule_stable cmdOk deps d hdr (by omega : r ≤ r)]
  rw [h1, h2, h3]

theorem schedule_dep_failed (cmdOk : Nat → Bool) (deps : Nat → List Nat)
    (hb : ∀ a d, d ∈ deps a → d < a) {n r d : Nat} (hr : r < n) (hd : d ∈ deps r)
    (hfail : isSucc (schedule cmdOk deps n d) = false) :
    schedule cmdOk deps n r = some (BStatus.Failed, false) := by
  rw [schedule_eq cmdOk deps hb hr]
  have hall : ((deps r).all fun e => isSucc (schedule cmdOk deps n e)) = false := by
    rw [List.all_eq_false]
    exact ⟨d, hd, by simp [hfail]⟩
  rw [hall]
  simp

theorem schedule_failed_propagates (cmdOk : Nat → Bool) (deps : Nat → List Nat)
    (hb : ∀ a d, d ∈ deps a → d < a) {n F : Nat}
    (hF : isSucc (schedule cmdOk deps n F) = false) :
    ∀ {r}, DependsOn deps r F → r < n →
      schedule cmdOk deps n r = some (BStatus.Failed, false) := by
  intro r hdep
  induction hdep with
  | direct hd =>
      intro hr
      exact schedule_dep_failed cmdOk deps hb hr hd hF
  | trans hm hdep ih =>
      intro hr
      have hma := hb _ _ hm
      have hmn := lt_trans hma hr
      have hsched := ih hF hmn
      exact schedule_dep_failed cmdOk deps hb hr hm (by rw [hsched]; rfl)

theorem schedule_succeeds (cmdOk : Nat → Bool) (deps : Nat → List Nat)
    (hb : ∀ a d, d ∈ deps a → d < a) {n : Nat} :
    ∀ r, r < n → (∀ d, DependsOn deps r d → cmdOk d = true) → cmdOk r = true →
      schedule cmdOk deps n r = some (BStatus.Succeeded, true) := by
  intro r
  induction r using Nat.strong_induction_on with
  | _ r ih =>
      intro hr hall hself
      rw [schedule_eq cmdOk deps hb hr]
      have h1 : ((deps r).all fun d => isSucc (schedule cmdOk deps n d)) = true := by
        rw [List.all_eq_true]
        intro d hd
        have hdr : d < r := hb r d hd
        have := ih d hdr (by omega) (fun e he => hall e (DependsOn.trans hd he))
          (hall d (DependsOn.direct hd))
        rw [this]
        rfl
      rw [h1]
      simp [hself]

theorem schedule_isSome (cmdOk : Nat → Bool) (deps : Nat → List Nat) :
    ∀ n r, r < n → ∃ v, schedule cmdOk deps n r = some v
  | n + 1, r, h => by
      by_cases hr : r = n
      · subst hr
        simp only [schedule, if_pos rfl]
        by_cases hall : ((deps r).all fun d => isSucc (schedule cmdOk deps r d)) = true
        · exact ⟨_, by rw [hall]; rfl⟩
        · rw [Bool.not_eq_true] at hall
          exact ⟨_, by rw [hall]; rfl⟩
      · have hrn : r < n := by omega
        obtain ⟨v, hv⟩ := schedule_isSome cmdOk deps n r hrn
        exact ⟨v, by simp only [schedule, hr, if_false]; exact hv⟩

end ZixSched

/-- C3: with stopOnFirstFailure unset (the modelled scheduler has no
global abort), for every topologically indexed recipe graph and every
recipe F that ends Failed: (a) every transitive dependent of F is marked
Failed without its build command being executed; (b) every recipe of the
graph is still scheduled and reaches a terminal state; (c) when F is the
only recipe whose build command fails, every other recipe not
transitively depending on F is executed and Succeeds. -/
theorem C3_failure_locality (cmdOk : Nat → Bool) (deps : Nat → List Nat) (n F r : Nat)
    (hb : ∀ a d, d ∈ deps a → d < a) (hr : r < n) :
    ((∃ eF, ZixSched.schedule cmdOk deps n F = some (ZixSched.BStatus.Failed, eF)) →
      ZixSched.DependsOn deps r F →
      ZixSched.schedule cmdOk deps n r = some (ZixSched.BStatus.Failed, false)) ∧
    (∃ v, ZixSched.schedule cmdOk deps n r = some v) ∧
    ((∀ d, cmdOk d = false → d = F) → ¬ ZixSched.DependsOn deps r F → r ≠ F →
      ZixSched.schedule cmdOk deps n r = some (ZixSched.BStatus.Succeeded, true)) := by
  refine ⟨?_, ZixSched.schedule_isSome cmdOk deps n r hr, ?_⟩
  · rintro ⟨eF, hF⟩ hdep
    have hFf : ZixSched.isSucc (ZixSched.schedule cmdOk deps n F) = false := by
      rw [hF]; rfl
    exact ZixSched.schedule_failed_propagates cmdOk deps hb hFf hdep hr
  · intro huniq hnd hne
    have hall : ∀ d, ZixSched.DependsOn deps r d → cmdOk d = true := by
      intro d hd
      by_contra hdf
      rw [Bool.not_eq_true] at hdf
      exact hnd (huniq d hdf ▸ hd)
    have hself : cmdOk r = true := by
      by_contra hrf
      rw [Bool.not_eq_true] at hrf
      exact hne (huniq r hrf)
    exact ZixSched.schedule_succeeds cmdOk deps hb r hr hall hself

/-- C3 witness: the spec scenario, recipe C (index 0) whose command
exits nonzero and independent recipe D (index 1): C ends Failed, D ends
Succeeded. -/
theorem C3_failure_locality_witness :
    ZixSched.schedule (fun i => i != 0) (fun _ => []) 2 0 =
      some (ZixSched.BStatus.Failed, true) ∧
    ZixSched.schedule (fun i => i != 0) (fun _ => []) 2 1 =
      some (ZixSched.BStatus.Succeeded, true) :=
  ⟨rfl,
    (C3_failure_locality (fun i => i != 0) (fun _ => []) 2 0 1
        (fun a d hd => absurd hd (List.not_mem_nil d)) (by decide)).2.2
      (fun d h => by simpa using h)
      (fun h => by
        cases h with
        | direct hd => exact absurd hd (List.not_mem_nil 0)
        | trans hm _ => exact absurd hm (List.not_mem_nil _))
      (by decide)⟩

/- Part III.F: graph validation. -/

namespace ZixSched

theorem dependsOn_extend {deps : Nat → List Nat} {a d e : Nat}
    (h : DependsOn deps a d) (he : e ∈ deps d) : DependsOn deps a e := by
  induction h with
  | direct hd => exact DependsOn.trans hd (DependsOn.direct he)
  | trans hm _ ih => exact DependsOn.trans hm (ih he)

theorem dependsOn_lt_of_bounded {deps : Nat → List Nat} {n : Nat}
    (hb : ∀ a, a < n → ∀ d ∈ deps a, d < n) {r d : Nat} (hr : r < n)
    (h : DependsOn deps r d) : d < n := by
  induction h with
  | direct hd => exact hb _ hr _ hd
  | trans hm _ ih => exact ih (hb _ hr _ hm)

theorem kahn_cycle (deps : Nat → List Nat) (S : Nat → Prop)
    (hS : ∀ d, S d → ∃ e ∈ deps d, S e) :
    ∀ (fuel : Nat) (remaining : List Nat),
      (∀ d, S d → d ∈ remaining) → (∃ d, S d) →
      ∃ rem, kahn deps fuel remaining = Except.error (GraphError.CycleDetected rem) ∧
        ∀ d, S d → d ∈ rem := by
  intro fuel
  induction fuel with
  | zero =>
      rintro remaining hsub ⟨d0, hd0⟩
      have hne : remaining.isEmpty = false := by
        cases remaining with
        | nil => exact absurd (hsub d0 hd0) (List.not_mem_nil d0)
        | cons a t => rfl
      exact ⟨remaining, by simp [kahn, hne], hsub⟩
  | succ fuel ih =>
      rintro remaining hsub ⟨d0, hd0⟩
      have hne : remaining.isEmpty = false := by
        cases remaining with
        | nil => exact absurd (hsub d0 hd0) (List.not_mem_nil d0)
        | cons a t => rfl
      by_cases hready : (readyOf deps remaining).isEmpty = true
      · exact ⟨remaining, by simp [kahn, hne, hready], hsub⟩
      · have hsub' : ∀ d, S d →
            d ∈ remaining.filter (fun r => !((readyOf deps remaining).contains r)) := by
          intro d hd
          rw [List.mem_filter]
          refine ⟨hsub d hd, ?_⟩
          obtain ⟨e, he, hSe⟩ := hS d hd
          have hem : e ∈ remaining := hsub e hSe
          have hnotready : d ∉ readyOf deps remaining := by
            intro hmem
            have := (List.mem_filter.mp hmem).2
            rw [List.all_eq_true] at this
            have := this e he
            simp [hem] at this
          simp [hnotready]
        obtain ⟨rem, hk, hsubr⟩ := ih _ hsub' ⟨d0, hd0⟩
        refine ⟨rem, ?_, hsubr⟩
        rw [kahn]
        rw [if_neg (by simp [hne]), if_neg (by simp [hready])]
        exact hk

end ZixSched

/-- C5: for every bounded recipe graph whose input relation has a cycle
(witnessed by a recipe r that transitively depends on itself),
`validate()` fails with CycleDetected, the stuck set it reports contains
r, and the whole `realize` call aborts with that same error before any
scheduling, so no recipe is ever scheduled or executed. -/
theorem C5_cycle_aborts (cmdOk : Nat → Bool) (deps : Nat → List Nat) (n r : Nat)
    (hb : ∀ a, a < n → ∀ d ∈ deps a, d < n) (hr : r < n)
    (hcyc : ZixSched.DependsOn deps r r) :
    ∃ rem, ZixSched.validate deps n = Except.error (ZixSched.GraphError.CycleDetected rem) ∧
      r ∈ rem ∧
      ZixSched.realize cmdOk deps n =
        Except.error (ZixSched.GraphError.CycleDetected rem) := by
  have hS : ∀ d, (ZixSched.DependsOn deps r d ∧ ZixSched.DependsOn deps d r) →
      ∃ e ∈ deps d, ZixSched.DependsOn deps r e ∧ ZixSched.DependsOn deps e r := by
    rintro d ⟨hrd, hdr⟩
    cases hdr with
    | direct hd => exact ⟨r, hd, hcyc, hcyc⟩
    | trans hm hmr =>
        refine ⟨_, hm, ?_, hmr⟩
        exact ZixSched.dependsOn_extend hrd hm
  have hsub : ∀ d, (ZixSched.DependsOn deps r d ∧ ZixSched.DependsOn deps d r) →
      d ∈ List.range n := by
    rintro d ⟨hrd, _⟩
    rw [List.mem_range]
    exact ZixSched.dependsOn_lt_of_bounded hb hr hrd
  obtain ⟨rem, hk, hsubr⟩ := ZixSched.kahn_cycle deps
    (fun d => ZixSched.DependsOn deps r d ∧ ZixSched.DependsOn deps d r) hS n
    (List.range n) hsub ⟨r, hcyc, hcyc⟩
  refine ⟨rem, hk, hsubr r ⟨hcyc, hcyc⟩, ?_⟩
  rw [ZixSched.realize]
  rw [show ZixSched.validate deps n = Except.error (ZixSched.GraphError.CycleDetected rem)
    from hk]

/-- C5 witness: the one-recipe graph whose recipe depends on itself is
rejected by validate, and realize returns the same error instead of a
status map. -/
theorem C5_cycle_aborts_witness :
    (ZixSched.validate (fun _ => [0]) 1).isOk = false ∧
    (ZixSched.realize (fun _ => true) (fun _ => [0]) 1).isOk = false := by
  obtain ⟨rem, hv, hmem, hr⟩ := C5_cycle_aborts (fun _ => true) (fun _ => [0]) 1 0
    (fun a ha d hd => by simp at hd; omega)
    (by decide) (ZixSched.DependsOn.direct (by simp))
  rw [hv, hr]
  exact ⟨rfl, rfl⟩

/- Part III.G: the Garbage Collector. -/

namespace ZixGC

open ZixStore (StorePath)

theorem markIter_subset_paths (g : GCStore) (roots : Finset StorePath) :
    ∀ k, markIter g roots k ⊆ g.paths
  | 0 => Finset.filter_subset _ _
  | k + 1 => by
      intro p hp
      rw [markIter, markStep, Finset.mem_union] at hp
      cases hp with
      | inl h => exact markIter_subset_paths g roots k h
      | inr h => exact (Finset.mem_filter.mp h).1

theorem markIter_mono_succ (g : GCStore) (roots : Finset StorePath) (k : Nat) :
    markIter g roots k ⊆ markIter g roots (k + 1) := by
  rw [markIter, markStep]
  exact Finset.subset_union_left

theorem markIter_mono (g : GCStore) (roots : Finset StorePath) {j k : Nat} (h : j ≤ k) :
    markIter g roots j ⊆ markIter g roots k := by
  induction k with
  | zero =>
      have : j = 0 := by omega
      rw [this]
  | succ k ih =>
      rcases Nat.eq_or_lt_of_le h with he | hlt
      · rw [he]
      · exact (ih (by omega)).trans (markIter_mono_succ g roots k)

theorem markIter_sound (g : GCStore) (roots : Finset StorePath) :
    ∀ k, ∀ p ∈ markIter g roots k, Reaches g roots p
  | 0 => fun p hp => Reaches.root (Finset.mem_filter.mp hp).2
  | k + 1 => fun p hp => by
      rw [markIter, markStep, Finset.mem_union] at hp
      cases hp with
      | inl h => exact markIter_sound g roots k p h
      | inr h =>
          obtain ⟨hpaths, hq⟩ := Finset.mem_filter.mp h
          obtain ⟨q, hqmem, href⟩ := hq
          exact Reaches.step (markIter_sound g roots k q hqmem)
            (markIter_subset_paths g roots k hqmem) href

theorem markIter_stab (g : GCStore) (roots : Finset StorePath) (k : Nat)
    (h : markIter g roots (k + 1) = markIter g roots k) :
    ∀ i, markIter g roots (k + i) = markIter g roots k
  | 0 => rfl
  | i + 1 => by
      have hprev := markIter_stab g roots k h i
      show markStep g (markIter g roots (k + i)) = markIter g roots k
      rw [hprev]
      exact h

theorem card_le_markIter (g : GCStore) (roots : Finset StorePath) :
    ∀ k, (∀ j, j < k → markIter g roots (j + 1) ≠ markIter g roots j) →
      k ≤ (markIter g roots k).card
  | 0, _ => Nat.zero_le _
  | k + 1, h => by
      have ihk := card_le_markIter g roots k (fun j hj => h j (by omega))
      have hne := h k (by omega)
      have hsub := markIter_mono_succ g roots k
      have hcard : (markIter g roots k).card < (markIter g roots (k + 1)).card :=
        Finset.card_lt_card (hsub.ssubset_of_ne (Ne.symm hne))
      omega

theorem exists_stab (g : GCStore) (roots : Finset StorePath) :
    ∃ k ≤ g.paths.card, markIter g roots (k + 1) = markIter g roots k := by
  by_contra hc
  push_neg at hc
  have h : ∀ j, j < g.paths.card + 1 → markIter g roots (j + 1) ≠ markIter g roots j :=
    fun j hj => hc j (by omega)
  have h1 := card_le_markIter g roots (g.paths.card + 1) h
  have h2 := Finset.card_le_card (markIter_subset_paths g roots (g.paths.card + 1))
  omega

theorem reachableSet_fixed (g : GCStore) (roots : Finset StorePath) :
    markStep g (reachableSet g roots) = reachableSet g roots := by
  obtain ⟨k, hk, hstab⟩ := exists_stab g roots
  have h1 : markIter g roots g.paths.card = markIter g roots k := by
    have := markIter_stab g roots k hstab (g.paths.card - k)
    rwa [Nat.add_sub_cancel' hk] at this
  have h2 : markIter g roots (g.paths.card + 1) = markIter g roots k := by
    have := markIter_stab g roots k hstab (g.paths.card + 1 - k)
    rwa [Nat.add_sub_cancel' (le_trans hk (Nat.le_succ _))] at this
  show markIter g roots (g.paths.card + 1) = markIter g roots g.paths.card
  rw [h1, h2]

theorem reaches_mem_reachableSet (g : GCStore) (roots : Finset StorePath) {p : StorePath}
    (h : Reaches g roots p) (hp : p ∈ g.paths) : p ∈ reachableSet g roots := by
  revert hp
  induction h with
  | root hr =>
      intro hp
      exact markIter_mono g roots (Nat.zero_le _) (Finset.mem_filter.mpr ⟨hp, hr⟩)
  | step hq hqpaths href ih =>
      intro hp
      have hqmem := ih hqpaths
      have hstep : _ ∈ markStep g (reachableSet g roots) :=
        Finset.mem_union_right _ (Finset.mem_filter.mpr ⟨hp, _, hqmem, href⟩)
      rwa [reachableSet_fixed] at hstep

end ZixGC

/-- C2 fails as literally stated: an unreachable store path whose lock
an active build holds is skipped, so it is not removed even though it is
not reachable from the root set. -/
theorem C2_counterexample :
    ¬ ∀ (g : ZixGC.GCStore) (roots : Finset ZixStore.StorePath) (p : ZixStore.StorePath),
        p ∈ g.paths → ¬ ZixGC.Reaches g roots p → p ∈ (ZixGC.collect g roots).1 := by
  intro h
  have hnr : ∀ q, ¬ ZixGC.Reaches ⟨{⟨[], "a"⟩}, fun _ => ∅, {⟨[], "a"⟩}⟩ ∅ q := by
    intro q hr
    induction hr with
    | root hmem => exact absurd hmem (Finset.not_mem_empty _)
    | step _ _ href ih => exact absurd href (Finset.not_mem_empty _)
  have hin := h ⟨{⟨[], "a"⟩}, fun _ => ∅, {⟨[], "a"⟩}⟩ ∅ ⟨[], "a"⟩ (by decide) (hnr _)
  exact absurd hin (by decide)

/-- C2 amended: `collect(R)` removes no StorePath reachable from R by
transitively following recorded input references; it removes every store
path that is neither reachable nor currently locked by an active build
(including in graphs with shared sub-artifacts); a locked candidate is
skipped rather than removed or an error; and the surviving store
contents are exactly the paths not freed. -/
theorem C2_collect_characterization (g : ZixGC.GCStore) (roots : Finset ZixStore.StorePath)
    (p : ZixStore.StorePath) :
    (ZixGC.Reaches g roots p → p ∉ (ZixGC.collect g roots).1) ∧
    (p ∈ g.paths → ¬ ZixGC.Reaches g roots p → p ∉ g.locked →
      p ∈ (ZixGC.collect g roots).1) ∧
    (p ∈ g.locked → p ∉ (ZixGC.collect g roots).1) ∧
    (p ∈ (ZixGC.collect g roots).2.paths ↔ p ∈ g.paths ∧ p ∉ (ZixGC.collect g roots).1) := by
  refine ⟨?_, ?_, ?_, ?_⟩
  · intro hreach hmem
    rw [ZixGC.collect] at hmem
    simp only [Finset.mem_filter] at hmem
    obtain ⟨hpaths, hnotlive, _⟩ := hmem
    exact hnotlive (ZixGC.reaches_mem_reachableSet g roots hreach hpaths)
  · intro hpaths hnreach hnlock
    rw [ZixGC.collect]
    simp only [Finset.mem_filter]
    exact ⟨hpaths, fun hlive => hnreach (ZixGC.markIter_sound g roots _ p hlive), hnlock⟩
  · intro hlock hmem
    rw [ZixGC.collect] at hmem
    simp only [Finset.mem_filter] at hmem
    exact hmem.2.2 hlock
  · rw [ZixGC.collect]
    simp only [Finset.mem_sdiff]

/-- C2 witness: a two-path store where the root pins one path; the
unlocked unreachable path is freed, the reachable one survives. -/
theorem C2_collect_characterization_witness :
    ((⟨[], "b"⟩ : ZixStore.StorePath) ∈
      (ZixGC.collect ⟨{⟨[], "a"⟩, ⟨[], "b"⟩}, fun _ => ∅, ∅⟩ {⟨[], "a"⟩}).1) ∧
    ((⟨[], "a"⟩ : ZixStore.StorePath) ∉
      (ZixGC.collect ⟨{⟨[], "a"⟩, ⟨[], "b"⟩}, fun _ => ∅, ∅⟩ {⟨[], "a"⟩}).1) := by
  have h1 : (⟨[], "b"⟩ : ZixStore.StorePath) ∈
      ({⟨[], "a"⟩, ⟨[], "b"⟩} : Finset ZixStore.StorePath) :=
    Finset.mem_insert_of_mem (Finset.mem_singleton_self _)
  have h2 : ¬ ZixGC.Reaches ⟨{⟨[], "a"⟩, ⟨[], "b"⟩}, fun _ => ∅, ∅⟩ {⟨[], "a"⟩}
      ⟨[], "b"⟩ := by
    intro hr
    cases hr with
    | root hmem =>
        rw [Finset.mem_singleton] at hmem
        exact absurd (congrArg ZixStore.StorePath.name hmem) (by decide)
    | step _ _ href => exact absurd href (Finset.not_mem_empty _)
  have hb := (C2_collect_characterization ⟨{⟨[], "a"⟩, ⟨[], "b"⟩}, fun _ => ∅, ∅⟩
      {⟨[], "a"⟩} ⟨[], "b"⟩).2.1 h1 h2 (Finset.not_mem_empty _)
  have ha := (C2_collect_characterization ⟨{⟨[], "a"⟩, ⟨[], "b"⟩}, fun _ => ∅, ∅⟩
      {⟨[], "a"⟩} ⟨[], "a"⟩).1 (ZixGC.Reaches.root (Finset.mem_singleton_self _))
  exact ⟨hb, ha⟩
